import Mathlib

/-!
Verification of the review-draw server (`src/server.js`).

The server exposes two endpoints over a remotely stored JSON file
(`reviews.json` on GitHub):

* `GET /next-review` — fetch the file, parse it, pick a random element of
  the `reviews` array, remove it, and write the updated array back with the
  fetched blob sha as the expected version (optimistic concurrency).
* `GET /status` — fetch and parse only, returning `reviews.length`.

The embedding below models the JavaScript data values and the operational
quirks the handlers rely on (`json.reviews` throwing on `null`, the
`|| []` truthiness default, `Array.isArray`, `reviews[index]` /
`splice(index, 1)`, `.length` on non-arrays), the remote blob as a
versioned store with conditional writes, and each handler as a function
from store state (plus the drawn random index) to a result, a new store
state, and the list of remote operations attempted.
-/

/-- JSON values, the results of a successful `JSON.parse`. -/
inductive JsonVal where
  | null
  | bool (b : Bool)
  | num (n : Int)
  | str (s : String)
  | arr (elems : List JsonVal)
  | obj (fields : List (String × JsonVal))

/-- A JavaScript expression value: either `undefined` or a JSON value.
Property access on a parsed document yields `undefined` for absent fields. -/
inductive JsVal where
  | undefined
  | val (v : JsonVal)

/-- A thrown JavaScript error (here only the `TypeError` from reading a
property of `null`), caught by the handlers' outer `catch`. -/
inductive JsErr where
  | typeError

/-- Field lookup in an object's field list (as produced by `JSON.parse`,
whose objects have unique keys). -/
def lookupField : List (String × JsonVal) → String → Option JsonVal
  | [], _ => none
  | (k, v) :: rest, key => if k = key then some v else lookupField rest key

/-- JavaScript property access `json[key]` on a parsed JSON value:
throws `TypeError` on `null`, returns the field (or `undefined` if absent)
on objects, and `undefined` on every other primitive or array
(for a key such as `"reviews"` that is not a built-in property). -/
def getField : JsonVal → String → Except JsErr JsVal
  | .null, _ => .error .typeError
  | .obj fields, key =>
      match lookupField fields key with
      | some v => .ok (.val v)
      | none => .ok .undefined
  | .bool _, _ => .ok .undefined
  | .num _, _ => .ok .undefined
  | .str _, _ => .ok .undefined
  | .arr _, _ => .ok .undefined

/-- JavaScript truthiness of a value (`undefined`, `null`, `false`, `0` and
`""` are falsy; every array and object is truthy). -/
def jsTruthy : JsVal → Bool
  | .undefined => false
  | .val .null => false
  | .val (.bool b) => b
  | .val (.num n) => n != 0
  | .val (.str s) => s != ""
  | .val (.arr _) => true
  | .val (.obj _) => true

/-- JavaScript `a || b`. -/
def jsOr (a b : JsVal) : JsVal := if jsTruthy a then a else b

/-- JavaScript `Array.isArray`. -/
def isArray : JsVal → Bool
  | .val (.arr _) => true
  | _ => false

/-- JavaScript `v.length`: throws on `null`/`undefined`, is the element
count on arrays, the character count on strings, an ordinary field lookup
on objects, and `undefined` on booleans and numbers. -/
def jsLength : JsVal → Except JsErr JsVal
  | .undefined => .error .typeError
  | .val .null => .error .typeError
  | .val (.arr xs) => .ok (.val (.num xs.length))
  | .val (.str s) => .ok (.val (.num s.length))
  | .val (.obj fields) =>
      match lookupField fields "length" with
      | some v => .ok (.val v)
      | none => .ok .undefined
  | .val (.bool _) => .ok .undefined
  | .val (.num _) => .ok .undefined

/-- The value of `const reviews = json.reviews || []` in both handlers:
the `reviews` field of the parsed document, defaulted to the empty array
when falsy, or the `TypeError` thrown when the document is `null`. -/
def reviewsOf (json : JsonVal) : Except JsErr JsVal :=
  match getField json "reviews" with
  | .error e => .error e
  | .ok raw => .ok (jsOr raw (.val (.arr [])))

/-- JavaScript array indexing `xs[i]`: the element when in range,
`undefined` otherwise. -/
def jsIndex (xs : List JsonVal) (i : Nat) : JsVal :=
  match xs[i]? with
  | some v => .val v
  | none => .undefined

/-- The selection step of `/next-review`: `reviews[index]` together with
the result of `reviews.splice(index, 1)` (the input with position `index`
removed, all other elements keeping their relative order). -/
def selectAndRemove (xs : List JsonVal) (i : Nat) : JsVal × List JsonVal :=
  (jsIndex xs i, xs.take i ++ xs.drop (i + 1))

/-- The remote blob: the parsed content of `reviews.json` (`none` models a
byte string that is not valid JSON) together with its version token
(the GitHub blob sha, modelled as a counter compared only for equality). -/
structure Store where
  content : Option JsonVal
  version : Nat

/-- Failure of a conditional write. -/
inductive PutErr where
  | conflict

/-- The conditional write `writeGitHubFile(newContent, sha)`: the remote
store accepts the write only if the expected version token still matches
its current version, and every successful write produces a fresh token;
otherwise the write is rejected with a conflict (HTTP 409 from GitHub). -/
def put (st : Store) (newContent : Option JsonVal) (expectedVersion : Nat) :
    Except PutErr Store :=
  if expectedVersion = st.version then .ok ⟨newContent, st.version + 1⟩
  else .error .conflict

/-- Remote operations a handler performs, in order. -/
inductive Event where
  | fetch
  | putAttempt

/-- Outcome of one `/next-review` request, as serialized by the handler. -/
inductive DrawResult where
  /-- 500 with body `{error: "Invalid JSON format in reviews.json"}`. -/
  | invalidJson
  /-- 200 with body `{done: true, message: "No reviews left in file.", review: null}`. -/
  | doneEmpty
  /-- 200 with body `{done: false, review, remaining}`. -/
  | success (review : JsVal) (remaining : Nat)
  /-- 500 with body `{error: "Internal server error"}` (the outer catch). -/
  | serverError

/-- HTTP status code of a `/next-review` outcome. -/
def statusCode : DrawResult → Nat
  | .invalidJson => 500
  | .doneEmpty => 200
  | .success _ _ => 200
  | .serverError => 500

/-- The `message` field of a `/next-review` response body, when present. -/
def responseMessage : DrawResult → Option String
  | .doneEmpty => some "No reviews left in file."
  | _ => none

/-- The `review` field of a `/next-review` response body (the chosen
review on success, JSON `null` on the empty-list outcome, absent on
errors). -/
def responseReview : DrawResult → Option JsVal
  | .doneEmpty => some (.val .null)
  | .success review _ => some review
  | _ => none

/-- Result, resulting store state, and remote operations of one request. -/
structure DrawStep where
  result : DrawResult
  store : Store
  events : List Event

/-- The `/next-review` handler body. Because the fetch and the write are
separate awaited round-trips, a concurrent writer may change the store in
between: `fetchSt` is the store state observed by `readGitHubFile` and
`writeSt` the state the store is in when `writeGitHubFile` arrives.
`r` is the drawn random index `Math.floor(Math.random() * reviews.length)`.
Steps, as in the source: parse the content (invalid JSON is answered
directly with its own 500); read `json.reviews || []` (a thrown
`TypeError` falls to the outer catch); answer `doneEmpty` when that value
is not an array or is empty; otherwise select and remove at index `r`,
write `{reviews: residual}` back conditionally on the fetched version, and
answer with the chosen review, or with the outer catch's 500 when the
write is rejected. -/
def drawNextFrom (fetchSt writeSt : Store) (r : Nat) : DrawStep :=
  match fetchSt.content with
  | none => ⟨.invalidJson, writeSt, [.fetch]⟩
  | some json =>
    match reviewsOf json with
    | .error _ => ⟨.serverError, writeSt, [.fetch]⟩
    | .ok reviews =>
      match reviews with
      | .val (.arr xs) =>
        if xs.length = 0 then ⟨.doneEmpty, writeSt, [.fetch]⟩
        else
          let sel := selectAndRemove xs r
          match put writeSt (some (.obj [("reviews", .arr sel.2)])) fetchSt.version with
          | .ok st' => ⟨.success sel.1 sel.2.length, st', [.fetch, .putAttempt]⟩
          | .error _ => ⟨.serverError, writeSt, [.fetch, .putAttempt]⟩
      | _ => ⟨.doneEmpty, writeSt, [.fetch]⟩

/-- One `/next-review` request with no interleaved concurrent writer: the
store is in the same state at fetch time and at write time. -/
def drawNext (st : Store) (r : Nat) : DrawStep := drawNextFrom st st r

/-- Outcome of one `/status` request. -/
inductive CountResult where
  /-- 200 with body `{count}` (the count is `undefined`, hence omitted by
  the serializer, when `reviews.length` is `undefined`). -/
  | ok (count : JsVal)
  /-- 500 with body `{error: "Internal server error"}`. -/
  | serverError

/-- Result, resulting store state, and remote operations of a `/status`
request. -/
structure CountStep where
  result : CountResult
  store : Store
  events : List Event

/-- The `/status` handler body: fetch, parse (`JSON.parse` failure and the
`TypeError` from `json.reviews` on `null` both fall to the catch), then
answer `{count: reviews.length}`. No write is ever attempted. -/
def getCount (st : Store) : CountStep :=
  match st.content with
  | none => ⟨.serverError, st, [.fetch]⟩
  | some json =>
    match reviewsOf json with
    | .error _ => ⟨.serverError, st, [.fetch]⟩
    | .ok reviews =>
      match jsLength reviews with
      | .error _ => ⟨.serverError, st, [.fetch]⟩
      | .ok len => ⟨.ok len, st, [.fetch]⟩

/-- Repeatedly calling `/next-review` with no concurrent writers, one call
per drawn index, threading the store through. Returns the per-call results
and the final store. -/
def runDraws : Store → List Nat → List DrawResult × Store
  | st, [] => ([], st)
  | st, r :: rs =>
    let step := drawNext st r
    let rest := runDraws step.store rs
    (step.result :: rest.1, rest.2)

/-- A sequence of drawn indices is feasible for a list of length `n`: the
code draws each index below the current length, which shrinks by one per
draw, and stops exactly when the list is exhausted. -/
def validIdxSeq : List Nat → Nat → Bool
  | [], n => n == 0
  | r :: rs, n => decide (r < n) && validIdxSeq rs (n - 1)

/-- A store holding the well-formed document `{"reviews": xs}` at version `v`. -/
def listStore (xs : List JsonVal) (v : Nat) : Store :=
  ⟨some (.obj [("reviews", .arr xs)]), v⟩

/-- The review carried by a non-terminal result. -/
def reviewOf : DrawResult → JsVal
  | .success review _ => review
  | _ => .undefined

/-- Length of the spliced list: removing an in-range index drops exactly one element. -/
lemma residual_length (xs : List JsonVal) (r : Nat) (h : r < xs.length) :
    (xs.take r ++ xs.drop (r + 1)).length = xs.length - 1 := by
  simp [List.length_take, List.length_drop]
  omega

/-- In-range array indexing returns the element at that position. -/
lemma jsIndex_eq (xs : List JsonVal) (r : Nat) (h : r < xs.length) :
    jsIndex xs r = .val (xs.get ⟨r, h⟩) := by
  simp [jsIndex, List.getElem?_eq_getElem h]

/-- Decomposition of a list around an in-range position. -/
lemma take_get_drop (xs : List JsonVal) (r : Nat) (h : r < xs.length) :
    xs.take r ++ xs.get ⟨r, h⟩ :: xs.drop (r + 1) = xs := by
  rw [List.get_eq_getElem, List.getElem_cons_drop, List.take_append_drop]

/-- One uncontended draw on a well-formed document with a non-empty list: the
chosen element is returned, the spliced list is written back, and the version
advances. -/
lemma drawNext_listStore (xs : List JsonVal) (v r : Nat) (h : r < xs.length) :
    drawNext (listStore xs v) r =
      ⟨.success (jsIndex xs r) ((xs.take r ++ xs.drop (r + 1)).length),
       listStore (xs.take r ++ xs.drop (r + 1)) (v + 1), [.fetch, .putAttempt]⟩ := by
  have hne : ¬ xs.length = 0 := by omega
  have hrev : reviewsOf (.obj [("reviews", .arr xs)]) = .ok (.val (.arr xs)) := rfl
  simp [drawNext, drawNextFrom, listStore, hrev, selectAndRemove, put, hne]

/-- A draw on a store holding an empty review list answers the terminal result. -/
lemma drawNext_empty_content (st : Store) (r : Nat)
    (h : st.content = some (.obj [("reviews", .arr [])])) :
    (drawNext st r).result = .doneEmpty := by
  obtain ⟨c, v⟩ := st
  simp only [Store.mk.injEq] at h
  subst h
  rfl

/-- The chosen element together with the residual list is a permutation of the
input list. -/
lemma perm_cons_residual_map (xs : List JsonVal) (r : Nat) (h : r < xs.length) :
    (JsVal.val (xs.get ⟨r, h⟩) :: (xs.take r ++ xs.drop (r + 1)).map JsVal.val).Perm
      (xs.map JsVal.val) := by
  conv_rhs => rw [← take_get_drop xs r h, List.map_append, List.map_cons]
  rw [List.map_append]
  exact List.perm_middle.symm

/-- Claim C2: starting from a well-formed document holding a list of length N,
any feasible sequence of drawn indices yields exactly N results, all
non-terminal successes, whose returned reviews are a permutation of the N
original elements (each returned exactly once); afterwards the remote list is
empty and one further call returns the terminal result. -/
theorem drawNext_exhaustion (rs : List Nat) (xs : List JsonVal) (v : Nat)
    (hvalid : validIdxSeq rs xs.length = true) :
    (runDraws (listStore xs v) rs).1.length = xs.length ∧
    (∀ res ∈ (runDraws (listStore xs v) rs).1, ∃ c n, res = DrawResult.success c n) ∧
    ((runDraws (listStore xs v) rs).1.map reviewOf).Perm (xs.map JsVal.val) ∧
    (runDraws (listStore xs v) rs).2.content = some (.obj [("reviews", .arr [])]) ∧
    (drawNext (runDraws (listStore xs v) rs).2 0).result = .doneEmpty := by
  induction rs generalizing xs v with
  | nil =>
    have hx : xs.length = 0 := by simpa [validIdxSeq] using hvalid
    have hxnil : xs = [] := List.eq_nil_of_length_eq_zero hx
    subst hxnil
    refine ⟨rfl, by simp [runDraws], by simp [runDraws], rfl, ?_⟩
    exact drawNext_empty_content _ 0 rfl
  | cons r rs ih =>
    have hsplit : r < xs.length ∧ validIdxSeq rs (xs.length - 1) = true := by
      simpa [validIdxSeq] using hvalid
    obtain ⟨hr, hrest⟩ := hsplit
    have hlen : (xs.take r ++ xs.drop (r + 1)).length = xs.length - 1 :=
      residual_length xs r hr
    have hrest' : validIdxSeq rs ((xs.take r ++ xs.drop (r + 1)).length) = true := by
      rw [hlen]; exact hrest
    obtain ⟨ihlen, ihall, ihperm, ihcontent, ihdone⟩ :=
      ih (xs.take r ++ xs.drop (r + 1)) (v + 1) hrest'
    have hstep := drawNext_listStore xs v r hr
    have hrun : runDraws (listStore xs v) (r :: rs) =
        (DrawResult.success (jsIndex xs r) ((xs.take r ++ xs.drop (r + 1)).length)
            :: (runDraws (listStore (xs.take r ++ xs.drop (r + 1)) (v + 1)) rs).1,
          (runDraws (listStore (xs.take r ++ xs.drop (r + 1)) (v + 1)) rs).2) := by
      simp [runDraws, hstep]
    rw [hrun]
    refine ⟨?_, ?_, ?_, ihcontent, ihdone⟩
    · simp only [List.length_cons, ihlen, hlen]
      omega
    · intro res hres
      rcases List.mem_cons.mp hres with hres | hres
      · exact ⟨_, _, hres⟩
      · exact ihall res hres
    · rw [List.map_cons]
      have hchosen : reviewOf (DrawResult.success (jsIndex xs r)
          ((xs.take r ++ xs.drop (r + 1)).length)) = jsIndex xs r := rfl
      rw [hchosen, jsIndex_eq xs r hr]
      exact (ihperm.cons _).trans (perm_cons_residual_map xs r hr)

/-- Property access only throws on `null`; on every other parsed value it
produces a value (possibly `undefined`). -/
lemma getField_ok_of_ne_null (json : JsonVal) (key : String) (h : json ≠ JsonVal.null) :
    ∃ rv, getField json key = .ok rv := by
  cases json with
  | null => exact absurd rfl h
  | obj fields =>
      cases hlf : lookupField fields key with
      | none => exact ⟨.undefined, by simp [getField, hlf]⟩
      | some v => exact ⟨.val v, by simp [getField, hlf]⟩
  | bool b => exact ⟨.undefined, rfl⟩
  | num n => exact ⟨.undefined, rfl⟩
  | str s => exact ⟨.undefined, rfl⟩
  | arr xs => exact ⟨.undefined, rfl⟩

/-- An uncontended draw on valid non-null JSON content never reaches either
error response: it is the terminal result or a success. -/
lemma drawNext_seq_cases (json : JsonVal) (v r : Nat) (h : json ≠ JsonVal.null) :
    (drawNext ⟨some json, v⟩ r).result = .doneEmpty ∨
      ∃ c n, (drawNext ⟨some json, v⟩ r).result = DrawResult.success c n := by
  obtain ⟨raw, hraw⟩ := getField_ok_of_ne_null json "reviews" h
  have hrev : reviewsOf json = .ok (jsOr raw (.val (.arr []))) := by
    simp [reviewsOf, hraw]
  simp only [drawNext, drawNextFrom, hrev]
  cases hjs : jsOr raw (.val (.arr [])) with
  | undefined => simp
  | val w =>
    cases w with
    | arr xs =>
      by_cases hlen : xs.length = 0
      · simp [hlen]
      · right
        simp [hlen, put]
    | null => simp
    | bool b => simp
    | num n => simp
    | str s => simp
    | obj fs => simp

/-- Claim C3 (amended): for fetched content that parses as valid JSON other
than the value `null`, if the `reviews` field is absent or not a list,
`drawNext` treats it as an empty list and returns the terminal result; an
uncontended request fails with a server error exactly when the content is
not valid JSON at all (answered 500 with the dedicated invalid-JSON message)
or is the JSON value `null` (whose field access throws into the generic
500 handler). -/
theorem drawNext_parse_amended (st : Store) (r : Nat) :
    ((drawNext st r).result = .invalidJson ∨ (drawNext st r).result = .serverError
        ↔ st.content = none ∨ st.content = some JsonVal.null) ∧
    (∀ json raw, st.content = some json → json ≠ JsonVal.null →
      getField json "reviews" = .ok raw → (∀ ys, raw ≠ .val (.arr ys)) →
      (drawNext st r).result = .doneEmpty) := by
  obtain ⟨content, ver⟩ := st
  constructor
  · constructor
    · intro hres
      cases content with
      | none => exact Or.inl rfl
      | some json =>
        right
        by_cases hnull : json = JsonVal.null
        · rw [hnull]
        · exfalso
          rcases drawNext_seq_cases json ver r hnull with hd | ⟨c, n, hs⟩
          · rcases hres with h1 | h1 <;> rw [hd] at h1 <;> exact DrawResult.noConfusion h1
          · rcases hres with h1 | h1 <;> rw [hs] at h1 <;> exact DrawResult.noConfusion h1
    · intro hc
      rcases hc with hc | hc
      · simp only at hc
        subst hc
        exact Or.inl rfl
      · simp only at hc
        subst hc
        exact Or.inr rfl
  · intro json raw hc hnull hraw hnotarr
    simp only at hc
    subst hc
    have hrev : reviewsOf json = .ok (jsOr raw (.val (.arr []))) := by
      simp [reviewsOf, hraw]
    simp only [drawNext, drawNextFrom, hrev]
    cases hjs : jsOr raw (.val (.arr [])) with
    | undefined => simp
    | val w =>
      cases w with
      | arr xs =>
        have hx : xs = [] := by
          unfold jsOr at hjs
          by_cases ht : jsTruthy raw
          · rw [if_pos ht] at hjs
            exact absurd hjs (hnotarr xs)
          · rw [if_neg ht] at hjs
            cases hjs
            rfl
        subst hx
        simp
      | null => simp
      | bool b => simp
      | num n => simp
      | str s => simp
      | obj fs => simp

/-- Claim C1: for every non-empty input list and in-range drawn index,
`selectAndRemove` returns the element at the drawn index together with a
residual list of length one less, equal to the input with that position
erased: the input decomposes as prefix, chosen element, suffix, and the
residual is that same prefix followed by that same suffix, so all other
elements keep their original relative order. -/
theorem selectAndRemove_spec (xs : List JsonVal) (i : Nat) (h : i < xs.length) :
    (selectAndRemove xs i).1 = .val (xs.get ⟨i, h⟩) ∧
    (selectAndRemove xs i).2.length = xs.length - 1 ∧
    (selectAndRemove xs i).2 = xs.eraseIdx i ∧
    xs.take i ++ xs.get ⟨i, h⟩ :: xs.drop (i + 1) = xs ∧
    (selectAndRemove xs i).2 = xs.take i ++ xs.drop (i + 1) := by
  refine ⟨jsIndex_eq xs i h, residual_length xs i h, ?_, take_get_drop xs i h, rfl⟩
  rw [List.eraseIdx_eq_take_drop_succ]
  rfl

/-- Claim C4: when the parsed review list is empty, `drawNext` returns the
terminal result with the null review and message "No reviews left in file.",
performs no write (the only remote event is the fetch), leaves the store
unchanged, and answers 200, not an error. -/
theorem drawNext_empty_shortCircuit (st : Store) (r : Nat) (json : JsonVal)
    (hc : st.content = some json) (hr : reviewsOf json = .ok (.val (.arr []))) :
    drawNext st r = ⟨.doneEmpty, st, [.fetch]⟩ ∧
    Event.putAttempt ∉ (drawNext st r).events ∧
    statusCode (drawNext st r).result = 200 ∧
    responseReview (drawNext st r).result = some (.val .null) ∧
    responseMessage (drawNext st r).result = some "No reviews left in file." := by
  obtain ⟨content, ver⟩ := st
  simp only at hc
  subst hc
  have hstep : drawNext ⟨some json, ver⟩ r = ⟨.doneEmpty, ⟨some json, ver⟩, [.fetch]⟩ := by
    simp [drawNext, drawNextFrom, hr]
  rw [hstep]
  refine ⟨rfl, by simp, rfl, rfl, rfl⟩

/-- Claim C5: when the write is rejected because the fetched version token no
longer matches the store (a concurrent writer advanced it), `drawNext`
performs exactly one fetch and one write attempt, with no re-fetch and no
retry, leaves the store as the concurrent writer left it, and answers a 500
server error. -/
theorem drawNext_conflict_no_retry (fetchSt writeSt : Store) (r : Nat)
    (json : JsonVal) (xs : List JsonVal)
    (hc : fetchSt.content = some json) (hr : reviewsOf json = .ok (.val (.arr xs)))
    (hne : xs.length ≠ 0) (hv : fetchSt.version ≠ writeSt.version) :
    drawNextFrom fetchSt writeSt r = ⟨.serverError, writeSt, [.fetch, .putAttempt]⟩ ∧
    statusCode (drawNextFrom fetchSt writeSt r).result = 500 := by
  obtain ⟨content, ver⟩ := fetchSt
  simp only at hc hv
  subst hc
  have hstep : drawNextFrom ⟨some json, ver⟩ writeSt r =
      ⟨.serverError, writeSt, [.fetch, .putAttempt]⟩ := by
    simp [drawNextFrom, hr, hne, put, hv]
  rw [hstep]
  exact ⟨rfl, rfl⟩

/-- Claim C6: two writes conditioned on the same version token against a store
currently at that version: the first succeeds (and advances the version), and
any subsequent write still conditioned on the old token is rejected with a
conflict, so there is exactly one winner per version. -/
theorem put_conflict_exactly_one (st : Store) (c1 c2 : Option JsonVal) :
    put st c1 st.version = .ok ⟨c1, st.version + 1⟩ ∧
    (∀ st', put st c1 st.version = .ok st' → put st' c2 st.version = .error .conflict) := by
  constructor
  · simp [put]
  · intro st' hok
    simp only [put, if_pos rfl] at hok
    cases hok
    simp only [put]
    rw [if_neg]
    omega

/-- Claim C7: on a successful uncontended draw from a non-empty list,
`drawNext` answers 200 with the chosen element and a remaining count equal to
the residual list's length, which is the original length minus one. -/
theorem drawNext_success_response (st : Store) (r : Nat) (json : JsonVal) (xs : List JsonVal)
    (hc : st.content = some json) (hr : reviewsOf json = .ok (.val (.arr xs)))
    (hlt : r < xs.length) :
    (drawNext st r).result = .success (.val (xs.get ⟨r, hlt⟩)) (xs.length - 1) ∧
    statusCode (drawNext st r).result = 200 ∧
    (selectAndRemove xs r).2.length = xs.length - 1 := by
  obtain ⟨content, ver⟩ := st
  simp only at hc
  subst hc
  have hne : ¬ xs.length = 0 := by omega
  have hstep : (drawNext ⟨some json, ver⟩ r).result =
      .success (jsIndex xs r) ((selectAndRemove xs r).2.length) := by
    simp [drawNext, drawNextFrom, hr, hne, put, selectAndRemove]
  have hres : (selectAndRemove xs r).2.length = xs.length - 1 := residual_length xs r hlt
  rw [hstep, jsIndex_eq xs r hlt, hres]
  exact ⟨rfl, rfl, rfl⟩

/-- Claim C8: the status handler never mutates the remote blob: its resulting
store is its input store, for any number of repeated calls, it never attempts
a write (its only remote event is the fetch), and on a well-formed document it
answers the parsed review list's length as the count. -/
theorem getCount_pure (st : Store) :
    (getCount st).store = st ∧
    Event.putAttempt ∉ (getCount st).events ∧
    (∀ n, (fun s => (getCount s).store)^[n] st = st) ∧
    (∀ json xs, st.content = some json → reviewsOf json = .ok (.val (.arr xs)) →
      (getCount st).result = .ok (.val (.num xs.length))) := by
  have hstore : ∀ s : Store, (getCount s).store = s := by
    intro s
    obtain ⟨content, ver⟩ := s
    cases content with
    | none => rfl
    | some json =>
      cases hrev : reviewsOf json with
      | error e => simp [getCount, hrev]
      | ok rv =>
        cases hlen : jsLength rv with
        | error e => simp [getCount, hrev, hlen]
        | ok l => simp [getCount, hrev, hlen]
  have hevents : ∀ s : Store, Event.putAttempt ∉ (getCount s).events := by
    intro s
    obtain ⟨content, ver⟩ := s
    cases content with
    | none => simp [getCount]
    | some json =>
      cases hrev : reviewsOf json with
      | error e => simp [getCount, hrev]
      | ok rv =>
        cases hlen : jsLength rv with
        | error e => simp [getCount, hrev, hlen]
        | ok l => simp [getCount, hrev, hlen]
  refine ⟨hstore st, hevents st, fun n => Function.iterate_fixed (hstore st) n, ?_⟩
  intro json xs hc hrev
  obtain ⟨content, ver⟩ := st
  simp only at hc
  subst hc
  simp [getCount, hrev, jsLength]

/-- Claim C9: when the fetched content is the valid JSON value `null`,
`drawNext` answers a 500 server error (the `reviews` field access throws and
is caught by the generic handler) with no write attempted, instead of the
terminal empty-list result. -/
theorem drawNext_null_is_500 (v r : Nat) :
    drawNext ⟨some JsonVal.null, v⟩ r = ⟨.serverError, ⟨some JsonVal.null, v⟩, [.fetch]⟩ ∧
    statusCode (drawNext ⟨some JsonVal.null, v⟩ r).result = 500 ∧
    (drawNext ⟨some JsonVal.null, v⟩ r).result ≠ .doneEmpty := by
  refine ⟨rfl, rfl, ?_⟩
  intro h
  exact DrawResult.noConfusion h

/-- Claim C10: on the document whose `reviews` field is the string "abc", the
status handler reads the length of the string without an array check and
answers a count of 3, while a draw on the same store sees a non-array and
answers the terminal empty-list result, leaving the store unchanged. -/
theorem status_count_disagrees :
    (getCount ⟨some (.obj [("reviews", JsonVal.str "abc")]), 0⟩).result = .ok (.val (.num 3)) ∧
    (drawNext ⟨some (.obj [("reviews", JsonVal.str "abc")]), 0⟩ 0).result = .doneEmpty ∧
    (drawNext ⟨some (.obj [("reviews", JsonVal.str "abc")]), 0⟩ 0).store =
      ⟨some (.obj [("reviews", JsonVal.str "abc")]), 0⟩ :=
  ⟨rfl, rfl, rfl⟩

/-- Claim C3 counterexample: the fetched content `null` is valid JSON whose
`reviews` field is absent, yet `drawNext` answers a 500 server error rather
than the terminal result, refuting both halves of the claim as stated. -/
theorem drawNext_null_counterexample :
    (drawNext ⟨some JsonVal.null, 0⟩ 0).result = .serverError ∧
    (drawNext ⟨some JsonVal.null, 0⟩ 0).result ≠ .doneEmpty ∧
    statusCode (drawNext ⟨some JsonVal.null, 0⟩ 0).result = 500 := by
  refine ⟨rfl, ?_, rfl⟩
  intro h
  exact DrawResult.noConfusion h

/-- Witness for C1 at a concrete three-element list with drawn index 1. -/
theorem selectAndRemove_spec_witness :
    (selectAndRemove [JsonVal.str "A", .str "B", .str "C"] 1).1 = .val (.str "B") ∧
    (selectAndRemove [JsonVal.str "A", .str "B", .str "C"] 1).2.length = 2 :=
  ⟨(selectAndRemove_spec [JsonVal.str "A", .str "B", .str "C"] 1 (by decide)).1,
   (selectAndRemove_spec [JsonVal.str "A", .str "B", .str "C"] 1 (by decide)).2.1⟩

/-- Witness for C2: draining a three-element list with drawn indices 1, 0, 0. -/
theorem drawNext_exhaustion_witness :
    ((runDraws (listStore [JsonVal.str "A", .str "B", .str "C"] 0) [1, 0, 0]).1.map
        reviewOf).Perm ([JsonVal.str "A", .str "B", .str "C"].map JsVal.val) ∧
    (runDraws (listStore [JsonVal.str "A", .str "B", .str "C"] 0) [1, 0, 0]).2.content =
      some (.obj [("reviews", .arr [])]) :=
  ⟨(drawNext_exhaustion [1, 0, 0] [JsonVal.str "A", .str "B", .str "C"] 0 rfl).2.2.1,
   (drawNext_exhaustion [1, 0, 0] [JsonVal.str "A", .str "B", .str "C"] 0 rfl).2.2.2.1⟩

/-- Witness for the amended C3 at a document with a non-list reviews field. -/
theorem drawNext_parse_amended_witness :
    (drawNext ⟨some (.obj [("reviews", JsonVal.bool true)]), 0⟩ 0).result = .doneEmpty :=
  (drawNext_parse_amended ⟨some (.obj [("reviews", JsonVal.bool true)]), 0⟩ 0).2
    (.obj [("reviews", JsonVal.bool true)]) (.val (.bool true)) rfl (by simp) rfl
    (fun ys => by simp)

/-- Witness for C4 at the document holding an empty review list. -/
theorem drawNext_empty_shortCircuit_witness :
    drawNext (listStore [] 0) 0 = ⟨.doneEmpty, listStore [] 0, [.fetch]⟩ :=
  (drawNext_empty_shortCircuit (listStore [] 0) 0 (.obj [("reviews", .arr [])]) rfl rfl).1

/-- Witness for C5: a draw whose write meets a store advanced to version 1. -/
theorem drawNext_conflict_no_retry_witness :
    drawNextFrom (listStore [JsonVal.str "A"] 0) (listStore [] 1) 0 =
      ⟨.serverError, listStore [] 1, [.fetch, .putAttempt]⟩ :=
  (drawNext_conflict_no_retry (listStore [JsonVal.str "A"] 0) (listStore [] 1) 0
    (.obj [("reviews", .arr [JsonVal.str "A"])]) [JsonVal.str "A"] rfl rfl (by decide)
    (by decide)).1

/-- Witness for C6 at a concrete store and two competing writes. -/
theorem put_conflict_exactly_one_witness :
    put ⟨some JsonVal.null, 0⟩ none 0 = .ok ⟨none, 1⟩ ∧
    put ⟨none, 1⟩ none 0 = .error .conflict :=
  ⟨(put_conflict_exactly_one ⟨some JsonVal.null, 0⟩ none none).1,
   (put_conflict_exactly_one ⟨some JsonVal.null, 0⟩ none none).2 ⟨none, 1⟩
     (put_conflict_exactly_one ⟨some JsonVal.null, 0⟩ none none).1⟩

/-- Witness for C7 at a concrete two-element list with drawn index 1. -/
theorem drawNext_success_response_witness :
    (drawNext (listStore [JsonVal.str "A", .str "B"] 0) 1).result =
      .success (.val (.str "B")) 1 :=
  (drawNext_success_response (listStore [JsonVal.str "A", .str "B"] 0) 1
    (.obj [("reviews", .arr [JsonVal.str "A", .str "B"])]) [JsonVal.str "A", .str "B"]
    rfl rfl (by decide)).1

/-- Witness for C8 at the document holding a one-element list. -/
theorem getCount_pure_witness :
    (getCount (listStore [JsonVal.str "A"] 0)).store = listStore [JsonVal.str "A"] 0 ∧
    (getCount (listStore [JsonVal.str "A"] 0)).result = .ok (.val (.num 1)) :=
  ⟨(getCount_pure (listStore [JsonVal.str "A"] 0)).1,
   (getCount_pure (listStore [JsonVal.str "A"] 0)).2.2.2
     (.obj [("reviews", .arr [JsonVal.str "A"])]) [JsonVal.str "A"] rfl rfl⟩
